import Mathlib

/-!
Verification development for the hyperliquid-bot trading engine.

This file gives a shallow embedding of the bot's core algorithms and proves
properties of them:

* `internal/domain/entity/signal.go` — whale-alert categorization
  (`GetAlertType`) and the market-signal fuser (`AnalyzeSignal`);
* the AI-signal strategy (`ai_signal.go`) — entry evaluation, position sizing
  and exit management;
* the risk gate (`risk/checker.go`) — `RecordTrade`;
* the bot dispatcher (`cmd/bot/main.go`) — `executeOrder` and `onOrderUpdate`;
* the signal provider cache (`signal/provider.go`) — whale/liquidation
  retention windows;
* the indicator library (`strategy/indicators.go`) — Bollinger bands.

Go `float64` values are modelled as rationals (`ℚ`): every constant involved
is an exact decimal and no property below depends on rounding of binary
floating point.  Go `time.Time` values are modelled as integers (seconds).
Nilable pointers are modelled with `Option`; a Go panic (out-of-range index)
is modelled by an `Option` result being `none`.
-/

namespace HyperliquidBot

/-- Order / signal side, mirroring `entity.Side` (`buy`, `sell`). -/
inductive Side where
  | buy
  | sell
deriving Repr, DecidableEq

/-- Whale-alert categories, mirroring `entity.WhaleAlertType`. -/
inductive WhaleAlertType where
  | exchangeInflow
  | exchangeOutflow
  | walletTransfer
  | unknown
deriving Repr, DecidableEq

/-- A large on-chain transaction alert, mirroring `entity.WhaleAlert`
(fields not used by any modelled function are omitted). -/
structure WhaleAlert where
  id : String := ""
  blockchain : String := ""
  symbol : String := ""
  amountUSD : ℚ := 0
  fromOwner : String := ""
  toOwner : String := ""
  /-- Unix timestamp in seconds (Go `time.Time`). -/
  timestamp : ℤ := 0
deriving Repr, DecidableEq

/-- The fixed exchange-owner set from `WhaleAlert.GetAlertType`. -/
def exchangeSet : List String :=
  ["binance", "coinbase", "kraken", "bitfinex", "bybit", "okx",
   "huobi", "kucoin", "gate.io"]

/-- Membership test in the exchange set (the Go map lookup
`exchanges[owner]`, which yields `false` for absent keys). -/
def isExchange (owner : String) : Bool :=
  exchangeSet.contains owner

/-- `WhaleAlert.GetAlertType` from `internal/domain/entity/signal.go`. -/
def getAlertType (w : WhaleAlert) : WhaleAlertType :=
  let fromIsExchange := isExchange w.fromOwner
  let toIsExchange := isExchange w.toOwner
  if !fromIsExchange && toIsExchange then .exchangeInflow
  else if fromIsExchange && !toIsExchange then .exchangeOutflow
  else if !fromIsExchange && !toIsExchange then .walletTransfer
  else .unknown

/-- C8: every whale alert is categorized into exactly one of the four
categories, determined solely by membership of `from_owner` and `to_owner`
in the fixed exchange set: inflow iff only the destination is an exchange,
outflow iff only the source is an exchange, wallet transfer iff neither is,
and unknown iff both are (so binance→coinbase is unknown and
unknown→unknown is a wallet transfer). -/
theorem getAlertType_cases (w : WhaleAlert) :
    (getAlertType w = .exchangeInflow ↔
      (isExchange w.fromOwner = false ∧ isExchange w.toOwner = true)) ∧
    (getAlertType w = .exchangeOutflow ↔
      (isExchange w.fromOwner = true ∧ isExchange w.toOwner = false)) ∧
    (getAlertType w = .walletTransfer ↔
      (isExchange w.fromOwner = false ∧ isExchange w.toOwner = false)) ∧
    (getAlertType w = .unknown ↔
      (isExchange w.fromOwner = true ∧ isExchange w.toOwner = true)) := by
  unfold getAlertType
  cases hf : isExchange w.fromOwner <;> cases ht : isExchange w.toOwner <;>
    simp [hf, ht]

/-- C8 witness: the four concrete scenarios from the spec, settled by the
claim theorem at concrete alerts. -/
theorem getAlertType_cases_witness :
    getAlertType { fromOwner := "unknown", toOwner := "binance" } =
      .exchangeInflow ∧
    getAlertType { fromOwner := "coinbase", toOwner := "unknown" } =
      .exchangeOutflow ∧
    getAlertType { fromOwner := "binance", toOwner := "coinbase" } =
      .unknown ∧
    getAlertType { fromOwner := "unknown", toOwner := "unknown" } =
      .walletTransfer := by
  refine ⟨?_, ?_, ?_, ?_⟩
  · exact (getAlertType_cases _).1.mpr (by decide)
  · exact (getAlertType_cases _).2.1.mpr (by decide)
  · exact (getAlertType_cases _).2.2.2.mpr (by decide)
  · exact (getAlertType_cases _).2.2.1.mpr (by decide)

/-- Funding-rate record (`entity.FundingRate`); only the `Rate` field is
read by the fuser. -/
structure FundingRate where
  rate : ℚ
deriving Repr, DecidableEq

/-- Long/short ratio record (`entity.LongShortRatio`); only the
`LongShortRatio` field is read by the fuser. -/
structure LongShortRatio where
  longShortRatio : ℚ
deriving Repr, DecidableEq

/-- Liquidation event (`entity.Liquidation`); the fuser reads `Side` and
`Value`; the provider cache also reads `Timestamp`. -/
structure Liquidation where
  side : String := ""
  value : ℚ := 0
  timestamp : ℤ := 0
deriving Repr, DecidableEq

/-- Social-sentiment record (`entity.SocialSentiment`); only
`SentimentScore` is read by the fuser. -/
structure SocialSentiment where
  sentimentScore : ℚ
deriving Repr, DecidableEq

/-- Market direction bias (`entity.SignalBias`). -/
inductive SignalBias where
  | bullish
  | bearish
  | neutral
deriving Repr, DecidableEq

/-- The optional inputs of `entity.MarketSignal` that `AnalyzeSignal`
reads.  In Go the whale-alert and liquidation inputs are slices whose
presence test is `len > 0`; the others are nilable pointers. -/
structure MarketSignalIn where
  fundingRate : Option FundingRate := none
  longShortRatio : Option LongShortRatio := none
  recentLiquidations : List Liquidation := []
  recentWhaleAlerts : List WhaleAlert := []
  socialSentiment : Option SocialSentiment := none
deriving Repr, DecidableEq

/-- The three output fields `Bias`, `Strength`, `Confidence` that
`AnalyzeSignal` assigns. -/
structure AnalyzeResult where
  bias : SignalBias
  strength : ℚ
  confidence : ℚ
deriving Repr, DecidableEq

/-- Running `(bullishScore, bearishScore, dataPoints)` accumulator of
`AnalyzeSignal`. -/
structure ScoreAcc where
  bullish : ℚ
  bearish : ℚ
  dataPoints : ℕ
deriving Repr, DecidableEq

/-- The funding-rate block of `AnalyzeSignal`: high positive rate is
bearish, negative rate is bullish. -/
def fundingStage (a : ScoreAcc) (o : Option FundingRate) : ScoreAcc :=
  match o with
  | none => a
  | some fr =>
    let a := { a with dataPoints := a.dataPoints + 1 }
    if (1 : ℚ)/10000 < fr.rate then { a with bearish := a.bearish + 3/10 }
    else if fr.rate < -((1 : ℚ)/10000) then
      { a with bullish := a.bullish + 3/10 }
    else a

/-- The long/short-ratio block of `AnalyzeSignal`: too many longs is
bearish, too many shorts is bullish. -/
def lsrStage (a : ScoreAcc) (o : Option LongShortRatio) : ScoreAcc :=
  match o with
  | none => a
  | some r =>
    let a := { a with dataPoints := a.dataPoints + 1 }
    if (3 : ℚ)/2 < r.longShortRatio then { a with bearish := a.bearish + 2/10 }
    else if r.longShortRatio < (7 : ℚ)/10 then
      { a with bullish := a.bullish + 2/10 }
    else a

/-- Total USD value of exchange-inflow alerts in a whale-alert list. -/
def whaleInflowUSD (alerts : List WhaleAlert) : ℚ :=
  alerts.foldl
    (fun acc w =>
      if getAlertType w = .exchangeInflow then acc + w.amountUSD else acc) 0

/-- Total USD value of exchange-outflow alerts in a whale-alert list. -/
def whaleOutflowUSD (alerts : List WhaleAlert) : ℚ :=
  alerts.foldl
    (fun acc w =>
      if getAlertType w = .exchangeOutflow then acc + w.amountUSD else acc) 0

/-- The whale-alert block of `AnalyzeSignal`: dominant inflow is bearish,
dominant outflow is bullish. -/
def whaleStage (a : ScoreAcc) (alerts : List WhaleAlert) : ScoreAcc :=
  if 0 < alerts.length then
    let a := { a with dataPoints := a.dataPoints + 1 }
    let inflowValue := whaleInflowUSD alerts
    let outflowValue := whaleOutflowUSD alerts
    if outflowValue * (3/2) < inflowValue then
      { a with bearish := a.bearish + 3/10 }
    else if inflowValue * (3/2) < outflowValue then
      { a with bullish := a.bullish + 3/10 }
    else a
  else a

/-- Total value of liquidations on the long side (`liq.Side == "long"`). -/
def longLiqValue (liqs : List Liquidation) : ℚ :=
  liqs.foldl (fun acc l => if l.side = "long" then acc + l.value else acc) 0

/-- Total value of liquidations not on the long side (the Go `else`
branch). -/
def shortLiqValue (liqs : List Liquidation) : ℚ :=
  liqs.foldl (fun acc l => if l.side = "long" then acc else acc + l.value) 0

/-- The liquidation block of `AnalyzeSignal`: cascading long liquidations
are bearish, short ones bullish. -/
def liqStage (a : ScoreAcc) (liqs : List Liquidation) : ScoreAcc :=
  if 0 < liqs.length then
    let a := { a with dataPoints := a.dataPoints + 1 }
    let longVal := longLiqValue liqs
    let shortVal := shortLiqValue liqs
    if shortVal * 2 < longVal then { a with bearish := a.bearish + 2/10 }
    else if longVal * 2 < shortVal then { a with bullish := a.bullish + 2/10 }
    else a
  else a

/-- The social-sentiment block of `AnalyzeSignal`. -/
def sentimentStage (a : ScoreAcc) (o : Option SocialSentiment) : ScoreAcc :=
  match o with
  | none => a
  | some sent =>
    let a := { a with dataPoints := a.dataPoints + 1 }
    let score := sent.sentimentScore
    if (1 : ℚ)/5 < score then { a with bullish := a.bullish + 1/4 * score }
    else if score < -((1 : ℚ)/5) then
      { a with bearish := a.bearish + 1/4 * (-score) }
    else a

/-- `MarketSignal.AnalyzeSignal` from `internal/domain/entity/signal.go`:
accumulates per-input scores then resolves `(Bias, Strength, Confidence)`.
Note the version of this function under version control here has five
inputs (funding rate, long/short ratio, whale alerts, liquidations,
social sentiment) and no Fed/macro input. -/
def analyzeSignal (s : MarketSignalIn) : AnalyzeResult :=
  let a := fundingStage ⟨0, 0, 0⟩ s.fundingRate
  let a := lsrStage a s.longShortRatio
  let a := whaleStage a s.recentWhaleAlerts
  let a := liqStage a s.recentLiquidations
  let a := sentimentStage a s.socialSentiment
  let totalScore := a.bullish + a.bearish
  if totalScore = 0 then ⟨.neutral, 0, 0⟩
  else if a.bearish < a.bullish then
    ⟨.bullish, (a.bullish - a.bearish) / totalScore, (a.dataPoints : ℚ) / 5⟩
  else if a.bullish < a.bearish then
    ⟨.bearish, (a.bearish - a.bullish) / totalScore, (a.dataPoints : ℚ) / 5⟩
  else ⟨.neutral, 0, (a.dataPoints : ℚ) / 5⟩

/-- Bullish contribution of a single input kind, as an independent value
(first component: bullish, second: bearish). -/
def fundingScore (o : Option FundingRate) : ℚ × ℚ :=
  match o with
  | none => (0, 0)
  | some fr =>
    if (1 : ℚ)/10000 < fr.rate then (0, 3/10)
    else if fr.rate < -((1 : ℚ)/10000) then (3/10, 0)
    else (0, 0)

/-- Independent `(bullish, bearish)` contribution of the long/short-ratio
input. -/
def lsrScore (o : Option LongShortRatio) : ℚ × ℚ :=
  match o with
  | none => (0, 0)
  | some r =>
    if (3 : ℚ)/2 < r.longShortRatio then (0, 2/10)
    else if r.longShortRatio < (7 : ℚ)/10 then (2/10, 0)
    else (0, 0)

/-- Independent `(bullish, bearish)` contribution of the whale-alert
input. -/
def whaleScore (alerts : List WhaleAlert) : ℚ × ℚ :=
  if 0 < alerts.length then
    if whaleOutflowUSD alerts * (3/2) < whaleInflowUSD alerts then (0, 3/10)
    else if whaleInflowUSD alerts * (3/2) < whaleOutflowUSD alerts then
      (3/10, 0)
    else (0, 0)
  else (0, 0)

/-- Independent `(bullish, bearish)` contribution of the liquidation
input. -/
def liqScore (liqs : List Liquidation) : ℚ × ℚ :=
  if 0 < liqs.length then
    if shortLiqValue liqs * 2 < longLiqValue liqs then (0, 2/10)
    else if longLiqValue liqs * 2 < shortLiqValue liqs then (2/10, 0)
    else (0, 0)
  else (0, 0)

/-- Independent `(bullish, bearish)` contribution of the sentiment
input. -/
def sentScore (o : Option SocialSentiment) : ℚ × ℚ :=
  match o with
  | none => (0, 0)
  | some sent =>
    if (1 : ℚ)/5 < sent.sentimentScore then (1/4 * sent.sentimentScore, 0)
    else if sent.sentimentScore < -((1 : ℚ)/5) then
      (0, 1/4 * (-sent.sentimentScore))
    else (0, 0)

/-- The accumulated bullish score, described as a sum of independent
per-input contributions (the claim-level reading of the fuser). -/
def bullishScore (s : MarketSignalIn) : ℚ :=
  (fundingScore s.fundingRate).1 + (lsrScore s.longShortRatio).1 +
    (whaleScore s.recentWhaleAlerts).1 + (liqScore s.recentLiquidations).1 +
    (sentScore s.socialSentiment).1

/-- The accumulated bearish score as a sum of independent per-input
contributions. -/
def bearishScore (s : MarketSignalIn) : ℚ :=
  (fundingScore s.fundingRate).2 + (lsrScore s.longShortRatio).2 +
    (whaleScore s.recentWhaleAlerts).2 + (liqScore s.recentLiquidations).2 +
    (sentScore s.socialSentiment).2

/-- The number of input kinds present. -/
def dataPointsPresent (s : MarketSignalIn) : ℕ :=
  (if s.fundingRate.isSome then 1 else 0) +
    (if s.longShortRatio.isSome then 1 else 0) +
    (if 0 < s.recentWhaleAlerts.length then 1 else 0) +
    (if 0 < s.recentLiquidations.length then 1 else 0) +
    (if s.socialSentiment.isSome then 1 else 0)

/-- All five optional inputs are absent. -/
def allInputsAbsent (s : MarketSignalIn) : Prop :=
  s.fundingRate = none ∧ s.longShortRatio = none ∧
    s.recentWhaleAlerts = [] ∧ s.recentLiquidations = [] ∧
    s.socialSentiment = none

theorem fundingStage_eq (a : ScoreAcc) (o : Option FundingRate) :
    fundingStage a o =
      ⟨a.bullish + (fundingScore o).1, a.bearish + (fundingScore o).2,
        a.dataPoints + (if o.isSome then 1 else 0)⟩ := by
  cases o with
  | none => simp [fundingStage, fundingScore]
  | some fr =>
    simp only [fundingStage, fundingScore, Option.isSome_some]
    split_ifs <;> simp

theorem lsrStage_eq (a : ScoreAcc) (o : Option LongShortRatio) :
    lsrStage a o =
      ⟨a.bullish + (lsrScore o).1, a.bearish + (lsrScore o).2,
        a.dataPoints + (if o.isSome then 1 else 0)⟩ := by
  cases o with
  | none => simp [lsrStage, lsrScore]
  | some r =>
    simp only [lsrStage, lsrScore, Option.isSome_some]
    split_ifs <;> simp

theorem whaleStage_eq (a : ScoreAcc) (alerts : List WhaleAlert) :
    whaleStage a alerts =
      ⟨a.bullish + (whaleScore alerts).1, a.bearish + (whaleScore alerts).2,
        a.dataPoints + (if 0 < alerts.length then 1 else 0)⟩ := by
  simp only [whaleStage, whaleScore]
  split_ifs <;> simp

theorem liqStage_eq (a : ScoreAcc) (liqs : List Liquidation) :
    liqStage a liqs =
      ⟨a.bullish + (liqScore liqs).1, a.bearish + (liqScore liqs).2,
        a.dataPoints + (if 0 < liqs.length then 1 else 0)⟩ := by
  simp only [liqStage, liqScore]
  split_ifs <;> simp

theorem sentimentStage_eq (a : ScoreAcc) (o : Option SocialSentiment) :
    sentimentStage a o =
      ⟨a.bullish + (sentScore o).1, a.bearish + (sentScore o).2,
        a.dataPoints + (if o.isSome then 1 else 0)⟩ := by
  cases o with
  | none => simp [sentimentStage, sentScore]
  | some sent =>
    simp only [sentimentStage, sentScore, Option.isSome_some]
    split_ifs <;> simp

/-- The sequential accumulation of `AnalyzeSignal` computes exactly the
independent sums of contributions and the count of present inputs. -/
theorem analyzeSignal_acc (s : MarketSignalIn) :
    sentimentStage
        (liqStage
          (whaleStage (lsrStage (fundingStage ⟨0, 0, 0⟩ s.fundingRate)
            s.longShortRatio) s.recentWhaleAlerts)
          s.recentLiquidations) s.socialSentiment =
      ⟨bullishScore s, bearishScore s, dataPointsPresent s⟩ := by
  rw [fundingStage_eq, lsrStage_eq, whaleStage_eq, liqStage_eq,
    sentimentStage_eq]
  simp only [bullishScore, bearishScore, dataPointsPresent,
    ScoreAcc.mk.injEq]
  refine ⟨?_, ?_, ?_⟩ <;> ring

/-- `AnalyzeSignal` rephrased over the independent sums `bullishScore`,
`bearishScore` and `dataPointsPresent`. -/
theorem analyzeSignal_eq (s : MarketSignalIn) :
    analyzeSignal s =
      (if bullishScore s + bearishScore s = 0 then ⟨.neutral, 0, 0⟩
       else if bearishScore s < bullishScore s then
         ⟨.bullish,
           (bullishScore s - bearishScore s) /
             (bullishScore s + bearishScore s),
           (dataPointsPresent s : ℚ) / 5⟩
       else if bullishScore s < bearishScore s then
         ⟨.bearish,
           (bearishScore s - bullishScore s) /
             (bullishScore s + bearishScore s),
           (dataPointsPresent s : ℚ) / 5⟩
       else ⟨.neutral, 0, (dataPointsPresent s : ℚ) / 5⟩) := by
  have h := analyzeSignal_acc s
  simp only [analyzeSignal]
  rw [h]

/-- C1: the fuser resolves its accumulated bullish and bearish scores as
follows.  If the total score is zero (in particular when all five inputs
are absent) the result is neutral with strength 0 and confidence 0.
Otherwise strength is the normalized margin of the two scores, bias is
the side with the strictly larger score (a tie is neutral with strength
0), and confidence is data points over 5, where data points counts the
input kinds present. -/
theorem analyzeSignal_resolution (s : MarketSignalIn) :
    (bullishScore s + bearishScore s = 0 →
      analyzeSignal s = ⟨.neutral, 0, 0⟩) ∧
    (allInputsAbsent s → bullishScore s + bearishScore s = 0) ∧
    (bullishScore s + bearishScore s ≠ 0 →
      (analyzeSignal s).strength =
          |bullishScore s - bearishScore s| /
            (bullishScore s + bearishScore s) ∧
        (analyzeSignal s).confidence = (dataPointsPresent s : ℚ) / 5 ∧
        (bearishScore s < bullishScore s →
          (analyzeSignal s).bias = .bullish) ∧
        (bullishScore s < bearishScore s →
          (analyzeSignal s).bias = .bearish) ∧
        (bullishScore s = bearishScore s →
          (analyzeSignal s).bias = .neutral ∧
            (analyzeSignal s).strength = 0)) := by
  refine ⟨?_, ?_, ?_⟩
  · intro h0
    rw [analyzeSignal_eq]
    simp [h0]
  · intro habs
    obtain ⟨h1, h2, h3, h4, h5⟩ := habs
    simp [bullishScore, bearishScore, h1, h2, h3, h4, h5, fundingScore,
      lsrScore, whaleScore, liqScore, sentScore]
  · intro hne
    rw [analyzeSignal_eq]
    rcases lt_trichotomy (bearishScore s) (bullishScore s) with hlt | heq | hgt
    · rw [if_neg hne, if_pos hlt]
      refine ⟨?_, rfl, fun _ => rfl, fun hc => absurd hc (by linarith),
        fun hc => absurd hc (by linarith)⟩
      show (bullishScore s - bearishScore s) /
          (bullishScore s + bearishScore s) =
        |bullishScore s - bearishScore s| /
          (bullishScore s + bearishScore s)
      rw [abs_of_pos (sub_pos.mpr hlt)]
    · rw [if_neg hne, if_neg (heq ▸ lt_irrefl (bearishScore s)),
        if_neg (heq ▸ lt_irrefl (bearishScore s))]
      refine ⟨?_, rfl, fun hc => absurd hc (by linarith),
        fun hc => absurd hc (by linarith), fun _ => ⟨rfl, rfl⟩⟩
      show (0 : ℚ) =
        |bullishScore s - bearishScore s| /
          (bullishScore s + bearishScore s)
      rw [← heq, sub_self, abs_zero, zero_div]
    · rw [if_neg hne, if_neg (lt_asymm hgt), if_pos hgt]
      refine ⟨?_, rfl, fun hc => absurd hc (by linarith), fun _ => rfl,
        fun hc => absurd hc (by linarith)⟩
      show (bearishScore s - bullishScore s) /
          (bullishScore s + bearishScore s) =
        |bullishScore s - bearishScore s| /
          (bullishScore s + bearishScore s)
      rw [abs_of_neg (sub_neg.mpr hgt), neg_sub]

/-- C1 witness: with all inputs absent the scores sum to zero and the
fuser yields neutral, 0, 0. -/
theorem analyzeSignal_resolution_witness :
    analyzeSignal {} = ⟨.neutral, 0, 0⟩ :=
  (analyzeSignal_resolution {}).1
    (by norm_num [bullishScore, bearishScore, fundingScore, lsrScore,
      whaleScore, liqScore, sentScore])

/-- The bullish-fusion scenario inputs of the spec, minus the Fed
probabilities: funding rate −0.0005, long/short ratio 0.5, whale outflow
of 50 M USD and inflow of 10 M USD, sentiment score +0.5; no
liquidations.  The `MarketSignal` record under version control here has
no `FedCutProb`/`FedHikeProb` field, so the scenario's
`fed_cut_prob = 0.7, fed_hike_prob = 0.1` cannot even be represented. -/
def bullishFusionInput : MarketSignalIn :=
  { fundingRate := some ⟨-(5/10000)⟩
    longShortRatio := some ⟨1/2⟩
    recentLiquidations := []
    recentWhaleAlerts :=
      [{ fromOwner := "binance", toOwner := "unknown",
         amountUSD := 50000000 },
       { fromOwner := "unknown", toOwner := "binance",
         amountUSD := 10000000 }]
    socialSentiment := some ⟨1/2⟩ }

/-- C2: evaluation of the checked-in `AnalyzeSignal` at the spec's
bullish-fusion scenario.  The fuser has no Fed input: only four data
points (funding rate, long/short ratio, whale alerts, sentiment) are
counted, so confidence is 4/5 = 0.8, not 5/5 = 1.0 as the claim (and the
repository's own tests, which set `MarketSignal.FedCutProb`) expect. -/
theorem analyzeSignal_bullishFusion_noFed :
    analyzeSignal bullishFusionInput = ⟨.bullish, 1, 4/5⟩ := by
  simp +decide only [analyzeSignal, bullishFusionInput, fundingStage,
    lsrStage, whaleStage, liqStage, sentimentStage, whaleInflowUSD,
    whaleOutflowUSD, getAlertType, isExchange, exchangeSet,
    List.foldl_cons, List.foldl_nil, List.length_cons, List.length_nil]
  norm_num [AnalyzeResult.mk.injEq]

/-- Configuration of the AI-signal strategy (`AISignalConfig`), with the
Go `time.Duration` cooldown in seconds. -/
structure AISignalConfig where
  maxPositionSize : ℚ
  positionSizeStep : ℚ
  minSignalStrength : ℚ
  minConfidence : ℚ
  takeProfitPercent : ℚ
  stopLossPercent : ℚ
  trailingStop : Bool
  trailingPercent : ℚ
  maxDrawdown : ℚ
  cooldownPeriod : ℤ
  weightDerivatives : ℚ
  weightWhale : ℚ
  weightSentiment : ℚ
  weightMacro : ℚ
deriving Repr, DecidableEq

/-- `DefaultAISignalConfig` from the source. -/
def defaultAISignalConfig : AISignalConfig :=
  { maxPositionSize := 1000
    positionSizeStep := 100
    minSignalStrength := 3/10
    minConfidence := 4/10
    takeProfitPercent := 2/100
    stopLossPercent := 1/100
    trailingStop := true
    trailingPercent := 5/1000
    maxDrawdown := 5/100
    cooldownPeriod := 1800
    weightDerivatives := 30/100
    weightWhale := 20/100
    weightSentiment := 25/100
    weightMacro := 25/100 }

/-- A trade-intent signal (`service.Signal`). -/
structure TradeSignal where
  symbol : String
  side : Side
  price : ℚ
  quantity : ℚ
  reason : String
deriving Repr, DecidableEq

/-- A trading position (`entity.Position`), restricted to the fields the
modelled functions read.  Sign convention: `size > 0` long, `size < 0`
short. -/
structure Position where
  side : Side
  size : ℚ
  entryPrice : ℚ
deriving Repr, DecidableEq

/-- Numeric rendering used inside human-readable reason strings.  Go uses
`fmt.Sprintf` with `%.2f`/`%.0f`; the exact digits are irrelevant to
every property proved here, so the rational is rendered directly. -/
def fmtPercent (q : ℚ) : String := toString (q * 100)

/-- The header line of `buildEntryReason`.  The Go function then appends
one bullet line per present raw input; the strategy-level signal modelled
here carries only `(Bias, Strength, Confidence)` — which is all the
entry/exit logic reads — so the bullet lines are not modelled.  No
property proved below depends on the entry reason text. -/
def buildEntryReason (signal : AnalyzeResult) (direction : String) :
    String :=
  direction ++ " Entry | Strength: " ++ fmtPercent signal.strength ++
    "% | Confidence: " ++ fmtPercent signal.confidence ++ "%\n"

/-- `calculatePositionSize` from `ai_signal.go`: scale the maximum by
strength and confidence, round down to the step, cap at the maximum. -/
def calculatePositionSize (cfg : AISignalConfig) (signal : AnalyzeResult) :
    ℚ :=
  let baseSize := cfg.maxPositionSize * signal.strength * signal.confidence
  let steps : ℤ := ⌊baseSize / cfg.positionSizeStep⌋
  let size := (steps : ℚ) * cfg.positionSizeStep
  if cfg.maxPositionSize < size then cfg.maxPositionSize else size

/-- The position size as the claim words it: the scaled base floored to a
multiple of the step and capped (`min`) at the maximum. -/
def claimedEntrySize (cfg : AISignalConfig) (signal : AnalyzeResult) : ℚ :=
  min
    ((⌊cfg.maxPositionSize * signal.strength * signal.confidence /
        cfg.positionSizeStep⌋ : ℚ) * cfg.positionSizeStep)
    cfg.maxPositionSize

theorem calculatePositionSize_eq (cfg : AISignalConfig)
    (signal : AnalyzeResult) :
    calculatePositionSize cfg signal = claimedEntrySize cfg signal := by
  simp only [calculatePositionSize, claimedEntrySize, min_def]
  split_ifs with h1 h2 h2 <;> first | rfl | linarith

/-- `evaluateEntry` from `ai_signal.go`: the flat-state entry evaluation,
as a function of the stored last fused signal and the current price. -/
def evaluateEntry (cfg : AISignalConfig) (lastSignal : Option AnalyzeResult)
    (sym : String) (currentPrice : ℚ) : Option TradeSignal :=
  match lastSignal with
  | none => none
  | some signal =>
    if signal.strength < cfg.minSignalStrength then none
    else if signal.confidence < cfg.minConfidence then none
    else
      let positionSize := calculatePositionSize cfg signal
      if positionSize ≤ 0 then none
      else
        match signal.bias with
        | .bullish =>
          some { symbol := sym, side := .buy, price := currentPrice,
                 quantity := positionSize / currentPrice,
                 reason := buildEntryReason signal "LONG" }
        | .bearish =>
          some { symbol := sym, side := .sell, price := currentPrice,
                 quantity := positionSize / currentPrice,
                 reason := buildEntryReason signal "SHORT" }
        | .neutral => none

/-- C3: entry evaluation while flat.  An absent last signal emits
nothing; otherwise a signal is emitted only when strength and confidence
meet their thresholds and the computed size (base floored to the step,
capped at the maximum) is positive, the quantity is size over price, a
buy is emitted exactly for bullish bias and a sell exactly for bearish
bias, and a neutral bias emits nothing.  The positive-step hypothesis
reflects the defaults (step 100); Go's float semantics at step 0 are
NaN-propagating and outside the claim. -/
theorem evaluateEntry_spec (cfg : AISignalConfig) (sym : String)
    (price : ℚ) (_hstep : 0 < cfg.positionSizeStep) :
    evaluateEntry cfg none sym price = none ∧
    ∀ signal : AnalyzeResult,
      (∀ out, evaluateEntry cfg (some signal) sym price = some out →
        cfg.minSignalStrength ≤ signal.strength ∧
          cfg.minConfidence ≤ signal.confidence ∧
          0 < claimedEntrySize cfg signal ∧
          out.price = price ∧
          out.quantity = claimedEntrySize cfg signal / price ∧
          (out.side = .buy ↔ signal.bias = .bullish) ∧
          (out.side = .sell ↔ signal.bias = .bearish)) ∧
      (signal.bias = .neutral →
        evaluateEntry cfg (some signal) sym price = none) ∧
      (cfg.minSignalStrength ≤ signal.strength →
        cfg.minConfidence ≤ signal.confidence →
        0 < claimedEntrySize cfg signal →
        signal.bias ≠ .neutral →
        ∃ out, evaluateEntry cfg (some signal) sym price = some out) := by
  refine ⟨rfl, fun signal => ⟨?_, ?_, ?_⟩⟩
  · intro out hout
    simp only [evaluateEntry, calculatePositionSize_eq] at hout
    split_ifs at hout with h1 h2 h3
    rcases hbias : signal.bias with _ | _ | _
    · simp only [hbias] at hout
      injection hout with h
      subst h
      exact ⟨le_of_not_lt h1, le_of_not_lt h2, lt_of_not_le h3, rfl, rfl,
        by simp [hbias], by simp [hbias]⟩
    · simp only [hbias] at hout
      injection hout with h
      subst h
      exact ⟨le_of_not_lt h1, le_of_not_lt h2, lt_of_not_le h3, rfl, rfl,
        by simp [hbias], by simp [hbias]⟩
    · simp only [hbias] at hout
      exact Option.noConfusion hout
  · intro hneutral
    simp only [evaluateEntry, hneutral]
    split_ifs <;> rfl
  · intro hs hc hsize hbias
    simp only [evaluateEntry, calculatePositionSize_eq]
    rw [if_neg (not_lt.mpr hs), if_neg (not_lt.mpr hc),
      if_neg (not_le.mpr hsize)]
    rcases hb : signal.bias with _ | _ | _
    · exact ⟨_, rfl⟩
    · exact ⟨_, rfl⟩
    · exact absurd hb hbias

/-- C3 witness: the spec's weak-signal scenario — strength 0.2 and
confidence 0.3, below the defaults 0.3 and 0.4 — emits nothing while
flat. -/
theorem evaluateEntry_spec_witness :
    evaluateEntry defaultAISignalConfig (some ⟨.bullish, 2/10, 3/10⟩)
      "BTC" 50000 = none := by
  rcases hev : evaluateEntry defaultAISignalConfig
      (some ⟨.bullish, 2/10, 3/10⟩) "BTC" 50000 with _ | out
  · rfl
  · have h := ((evaluateEntry_spec defaultAISignalConfig "BTC" 50000
      (by norm_num [defaultAISignalConfig])).2 ⟨.bullish, 2/10, 3/10⟩).1
      out hev
    have hcontra : (3 : ℚ)/10 ≤ 2/10 := by
      simpa [defaultAISignalConfig] using h.1
    norm_num at hcontra

/-- The trailing-stop extremum update at the top of `managePosition`:
highest price since entry for a long, lowest for a short (a zero
`highestPrice` is (re)initialized for a short). -/
def updatedHighest (size h0 price : ℚ) : ℚ :=
  if 0 < size then (if h0 < price then price else h0)
  else if h0 = 0 ∨ price < h0 then price
  else h0

/-- The PnL percentage of `managePosition`: `(price−entry)/entry` for a
long, `(entry−price)/entry` for a short. -/
def pnlPct (size entry price : ℚ) : ℚ :=
  if 0 < size then (price - entry) / entry else (entry - price) / entry

/-- The trailing PnL of `managePosition`, measured from the running
extremum `h`. -/
def trailPct (size h price : ℚ) : ℚ :=
  if 0 < size then (price - h) / h else (h - price) / h

/-- `createExitSignal` from `ai_signal.go`: close the position with a
signal on the opposite side for the absolute position size. -/
def createExitSignal (sym : String) (position : Position) (price : ℚ)
    (reason : String) : TradeSignal :=
  { symbol := sym
    side := if 0 < position.size then Side.sell else Side.buy
    price := price
    quantity := |position.size|
    reason := "EXIT: " ++ reason }

/-- The final signal-reversal block of `managePosition`: while long, a
strong bearish fused signal closes the position; while not long, a
strong bullish one does. -/
def checkSignalReversal (lastSignal : Option AnalyzeResult) (sym : String)
    (position : Position) (currentPrice : ℚ) : List TradeSignal :=
  match lastSignal with
  | some sig =>
    if 0 < position.size ∧ sig.bias = .bearish ∧
        (1 : ℚ)/2 < sig.strength then
      [createExitSignal sym position currentPrice
        "Signal Reversal: Strong bearish signal detected"]
    else if ¬ 0 < position.size ∧ sig.bias = .bullish ∧
        (1 : ℚ)/2 < sig.strength then
      [createExitSignal sym position currentPrice
        "Signal Reversal: Strong bullish signal detected"]
    else []
  | none => []

/-- `managePosition` from `ai_signal.go`: update the trailing extremum,
then evaluate take profit, stop loss, trailing stop and signal reversal
in that order, returning at the first firing condition.  The result is
the emitted signals paired with the updated extremum (the Go method
mutates `s.highestPrice`). -/
def managePosition (cfg : AISignalConfig) (h0 : ℚ)
    (lastSignal : Option AnalyzeResult) (sym : String) (position : Position)
    (currentPrice : ℚ) : List TradeSignal × ℚ :=
  if position.size = 0 then ([], h0)
  else
    let h := updatedHighest position.size h0 currentPrice
    let pnlPercent := pnlPct position.size position.entryPrice currentPrice
    if cfg.takeProfitPercent ≤ pnlPercent then
      ([createExitSignal sym position currentPrice
          ("Take Profit: " ++ fmtPercent pnlPercent ++ "% gain")], h)
    else if pnlPercent ≤ -cfg.stopLossPercent then
      ([createExitSignal sym position currentPrice
          ("Stop Loss: " ++ fmtPercent pnlPercent ++ "% loss")], h)
    else if cfg.trailingStop = true ∧ 0 < h ∧
        trailPct position.size h currentPrice ≤ -cfg.trailingPercent then
      ([createExitSignal sym position currentPrice
          ("Trailing Stop: " ++
            fmtPercent (trailPct position.size h currentPrice) ++
            "% from high")], h)
    else (checkSignalReversal lastSignal sym position currentPrice, h)

/-- The take-profit condition of exit priority 1. -/
abbrev tpCond (cfg : AISignalConfig) (position : Position) (price : ℚ) :
    Prop :=
  cfg.takeProfitPercent ≤ pnlPct position.size position.entryPrice price

/-- The stop-loss condition of exit priority 2. -/
abbrev slCond (cfg : AISignalConfig) (position : Position) (price : ℚ) :
    Prop :=
  pnlPct position.size position.entryPrice price ≤ -cfg.stopLossPercent

/-- The trailing-stop condition of exit priority 3, over the updated
extremum. -/
abbrev trailCond (cfg : AISignalConfig) (h0 : ℚ) (position : Position)
    (price : ℚ) : Prop :=
  cfg.trailingStop = true ∧ 0 < updatedHighest position.size h0 price ∧
    trailPct position.size (updatedHighest position.size h0 price) price ≤
      -cfg.trailingPercent

/-- The signal-reversal condition of exit priority 4: the last fused
signal contradicts the held side with strength above 0.5. -/
def revCond (lastSignal : Option AnalyzeResult) (position : Position) :
    Prop :=
  ∃ sig, lastSignal = some sig ∧ (1 : ℚ)/2 < sig.strength ∧
    ((0 < position.size ∧ sig.bias = .bearish) ∨
      (¬ 0 < position.size ∧ sig.bias = .bullish))

/-- C4: while holding a position, exit conditions are evaluated in the
fixed order take profit, stop loss, trailing stop (when enabled, over a
positive updated extremum), signal reversal; the first match wins and at
most one exit signal is emitted.  Every emitted exit is on the side
opposite the held position, for the absolute position size at the
current price, and the reason of each branch carries its marker text —
in particular a take-profit exit's reason contains "Take Profit". -/
theorem managePosition_priority (cfg : AISignalConfig) (h0 : ℚ)
    (lastSignal : Option AnalyzeResult) (sym : String) (position : Position)
    (price : ℚ) (hpos : position.size ≠ 0) :
    (managePosition cfg h0 lastSignal sym position price).2 =
        updatedHighest position.size h0 price ∧
    (managePosition cfg h0 lastSignal sym position price).1.length ≤ 1 ∧
    ((managePosition cfg h0 lastSignal sym position price).1 = [] ↔
      ¬(tpCond cfg position price ∨ slCond cfg position price ∨
        trailCond cfg h0 position price ∨ revCond lastSignal position)) ∧
    (∀ t ∈ (managePosition cfg h0 lastSignal sym position price).1,
      t.side = (if 0 < position.size then Side.sell else Side.buy) ∧
        t.quantity = |position.size| ∧ t.price = price) ∧
    (tpCond cfg position price →
      ∃ t pre post,
        (managePosition cfg h0 lastSignal sym position price).1 = [t] ∧
          t.reason = pre ++ "Take Profit" ++ post) ∧
    (¬tpCond cfg position price → slCond cfg position price →
      ∃ t pre post,
        (managePosition cfg h0 lastSignal sym position price).1 = [t] ∧
          t.reason = pre ++ "Stop Loss" ++ post) ∧
    (¬tpCond cfg position price → ¬slCond cfg position price →
      trailCond cfg h0 position price →
      ∃ t pre post,
        (managePosition cfg h0 lastSignal sym position price).1 = [t] ∧
          t.reason = pre ++ "Trailing Stop" ++ post) ∧
    (¬tpCond cfg position price → ¬slCond cfg position price →
      ¬trailCond cfg h0 position price → revCond lastSignal position →
      ∃ t pre post,
        (managePosition cfg h0 lastSignal sym position price).1 = [t] ∧
          t.reason = pre ++ "Signal Reversal" ++ post) := by
  have hTP : ("Take Profit: " : String) = "Take Profit" ++ ": " := by decide
  have hSL : ("Stop Loss: " : String) = "Stop Loss" ++ ": " := by decide
  have hTR : ("Trailing Stop: " : String) = "Trailing Stop" ++ ": " := by
    decide
  have hRVb : ("Signal Reversal: Strong bearish signal detected" : String) =
      "Signal Reversal" ++ ": Strong bearish signal detected" := by decide
  have hRVu : ("Signal Reversal: Strong bullish signal detected" : String) =
      "Signal Reversal" ++ ": Strong bullish signal detected" := by decide
  simp only [managePosition, if_neg hpos]
  by_cases h1 : tpCond cfg position price
  · rw [if_pos h1]
    refine ⟨rfl, by simp, by simp [h1], ?_, ?_, fun hn => absurd h1 hn,
      fun hn _ => absurd h1 hn, fun hn _ _ => absurd h1 hn⟩
    · intro t ht
      simp only [List.mem_singleton] at ht
      subst ht
      exact ⟨rfl, rfl, rfl⟩
    · intro _
      refine ⟨_, "EXIT: ", ": " ++
        fmtPercent (pnlPct position.size position.entryPrice price) ++
          "% gain", rfl, ?_⟩
      simp only [createExitSignal]
      simp only [hTP, String.append_assoc]
  · rw [if_neg h1]
    by_cases h2 : slCond cfg position price
    · rw [if_pos h2]
      refine ⟨rfl, by simp, by simp [h2], ?_, fun hc => absurd hc h1,
        fun _ _ => ?_, fun _ hb _ => absurd h2 hb,
        fun _ hb _ _ => absurd h2 hb⟩
      · intro t ht
        simp only [List.mem_singleton] at ht
        subst ht
        exact ⟨rfl, rfl, rfl⟩
      · refine ⟨_, "EXIT: ", ": " ++
          fmtPercent (pnlPct position.size position.entryPrice price) ++
            "% loss", rfl, ?_⟩
        simp only [createExitSignal]
        simp only [hSL, String.append_assoc]
    · rw [if_neg h2]
      by_cases h3 : trailCond cfg h0 position price
      · rw [if_pos h3]
        refine ⟨rfl, by simp, by simp [h3], ?_, fun hc => absurd hc h1,
          fun _ hc => absurd hc h2, fun _ _ _ => ?_,
          fun _ _ hc _ => absurd h3 hc⟩
        · intro t ht
          simp only [List.mem_singleton] at ht
          subst ht
          exact ⟨rfl, rfl, rfl⟩
        · refine ⟨_, "EXIT: ", ": " ++
            fmtPercent (trailPct position.size
              (updatedHighest position.size h0 price) price) ++
              "% from high", rfl, ?_⟩
          simp only [createExitSignal]
          simp only [hTR, String.append_assoc]
      · rw [if_neg h3]
        rcases lastSignal with _ | sig <;>
          simp only [checkSignalReversal]
        · refine ⟨trivial, by simp, ?_, by simp, fun hc => absurd hc h1,
            fun _ hc => absurd hc h2, fun _ _ hc => absurd hc h3,
            fun _ _ _ hc => ?_⟩
          · refine iff_of_true trivial ?_
            rintro (hc | hc | hc | ⟨sig, hsig, -⟩)
            · exact h1 hc
            · exact h2 hc
            · exact h3 hc
            · exact Option.noConfusion hsig
          · obtain ⟨sig, hsig, -⟩ := hc
            exact Option.noConfusion hsig
        · by_cases h4a : 0 < position.size ∧ sig.bias = .bearish ∧
              (1 : ℚ)/2 < sig.strength
          · rw [if_pos h4a]
            refine ⟨trivial, by simp, ?_, ?_, fun hc => absurd hc h1,
              fun _ hc => absurd hc h2, fun _ _ hc => absurd hc h3,
              fun _ _ _ _ => ?_⟩
            · refine iff_of_false (by simp) (not_not_intro ?_)
              exact Or.inr (Or.inr (Or.inr
                ⟨sig, rfl, h4a.2.2, Or.inl ⟨h4a.1, h4a.2.1⟩⟩))
            · intro t ht
              simp only [List.mem_singleton] at ht
              subst ht
              exact ⟨rfl, rfl, rfl⟩
            · refine ⟨_, "EXIT: ",
                ": Strong bearish signal detected", rfl, ?_⟩
              simp only [createExitSignal]
              simp only [hRVb, String.append_assoc]
          · rw [if_neg h4a]
            by_cases h4b : ¬ 0 < position.size ∧ sig.bias = .bullish ∧
                (1 : ℚ)/2 < sig.strength
            · rw [if_pos h4b]
              refine ⟨trivial, by simp, ?_, ?_, fun hc => absurd hc h1,
                fun _ hc => absurd hc h2, fun _ _ hc => absurd hc h3,
                fun _ _ _ _ => ?_⟩
              · refine iff_of_false (by simp) (not_not_intro ?_)
                exact Or.inr (Or.inr (Or.inr
                  ⟨sig, rfl, h4b.2.2, Or.inr ⟨h4b.1, h4b.2.1⟩⟩))
              · intro t ht
                simp only [List.mem_singleton] at ht
                subst ht
                exact ⟨rfl, rfl, rfl⟩
              · refine ⟨_, "EXIT: ",
                  ": Strong bullish signal detected", rfl, ?_⟩
                simp only [createExitSignal]
                simp only [hRVu, String.append_assoc]
            · rw [if_neg h4b]
              refine ⟨trivial, by simp, ?_, by simp, fun hc => absurd hc h1,
                fun _ hc => absurd hc h2, fun _ _ hc => absurd hc h3,
                fun _ _ _ hc => ?_⟩
              · refine iff_of_true rfl ?_
                rintro (hc | hc | hc | ⟨sig2, hsig2, hstr, hside⟩)
                · exact h1 hc
                · exact h2 hc
                · exact h3 hc
                · injection hsig2 with hsig2
                  subst hsig2
                  rcases hside with ⟨hl, hb⟩ | ⟨hs, hb⟩
                  · exact h4a ⟨hl, hb, hstr⟩
                  · exact h4b ⟨hs, hb, hstr⟩
              · obtain ⟨sig2, hsig2, hstr, hside⟩ := hc
                injection hsig2 with hsig2
                subst hsig2
                rcases hside with ⟨hl, hb⟩ | ⟨hs, hb⟩
                · exact absurd ⟨hl, hb, hstr⟩ h4a
                · exact absurd ⟨hs, hb, hstr⟩ h4b

/-- C4 witness: the spec's take-profit scenario — long of size 1 opened
at 50000, current price 51500 (+3 percent), default config — yields
exactly one exit whose reason contains "Take Profit", on the sell side
for quantity 1. -/
theorem managePosition_priority_witness :
    (∀ t ∈ (managePosition defaultAISignalConfig 0 none "BTC"
        ⟨Side.buy, 1, 50000⟩ 51500).1,
      t.side = (if (0 : ℚ) < (1 : ℚ) then Side.sell else Side.buy) ∧
        t.quantity = |(1 : ℚ)| ∧ t.price = 51500) ∧
    ∃ t pre post,
      (managePosition defaultAISignalConfig 0 none "BTC"
          ⟨Side.buy, 1, 50000⟩ 51500).1 = [t] ∧
        t.reason = pre ++ "Take Profit" ++ post := by
  have h := managePosition_priority defaultAISignalConfig 0 none "BTC"
    ⟨Side.buy, 1, 50000⟩ 51500 (by norm_num)
  have htp : tpCond defaultAISignalConfig ⟨Side.buy, 1, 50000⟩ 51500 := by
    norm_num [tpCond, pnlPct, defaultAISignalConfig]
  exact ⟨h.2.2.2.1, h.2.2.2.2.1 htp⟩

/-- Risk-gate configuration (`risk.Config`), cooldown duration in
seconds. -/
structure RiskConfig where
  maxPositionSize : ℚ
  maxDailyLoss : ℚ
  maxConsecutiveLoss : ℤ
  cooldownDuration : ℤ
deriving Repr, DecidableEq

/-- `risk.DefaultConfig` from the source: size 1.0, daily loss 5 percent,
3 consecutive losses, 5-minute cooldown. -/
def defaultRiskConfig : RiskConfig :=
  { maxPositionSize := 1
    maxDailyLoss := 5/100
    maxConsecutiveLoss := 3
    cooldownDuration := 300 }

/-- Mutable state of `risk.Checker` (time values in seconds). -/
structure RiskState where
  dailyPnL : ℚ := 0
  consecutiveLoss : ℤ := 0
  cooldownUntil : ℤ := 0
  halted : Bool := false
  haltReason : String := ""
deriving Repr, DecidableEq

/-- `Checker.RecordTrade` from `risk/checker.go`, with `time.Now()`
passed explicitly as `now`. -/
def recordTrade (cfg : RiskConfig) (now : ℤ) (c : RiskState) (pnl : ℚ) :
    RiskState :=
  let c := { c with dailyPnL := c.dailyPnL + pnl }
  if pnl < 0 then
    let c := { c with consecutiveLoss := c.consecutiveLoss + 1 }
    if cfg.maxConsecutiveLoss ≤ c.consecutiveLoss then
      { c with cooldownUntil := now + cfg.cooldownDuration,
               consecutiveLoss := 0 }
    else c
  else { c with consecutiveLoss := 0 }

/-- C5: `RecordTrade(pnl)` adds `pnl` to the daily PnL; a loss increments
the consecutive-loss counter and, when the counter reaches the
configured maximum, sets the cooldown deadline to now plus the cooldown
duration and resets the counter to 0 immediately; a non-loss resets the
counter; no other risk state changes. -/
theorem recordTrade_spec (cfg : RiskConfig) (now : ℤ) (st : RiskState)
    (pnl : ℚ) :
    (recordTrade cfg now st pnl).dailyPnL = st.dailyPnL + pnl ∧
    (pnl < 0 →
      (cfg.maxConsecutiveLoss ≤ st.consecutiveLoss + 1 →
        (recordTrade cfg now st pnl).cooldownUntil =
            now + cfg.cooldownDuration ∧
          (recordTrade cfg now st pnl).consecutiveLoss = 0) ∧
      (st.consecutiveLoss + 1 < cfg.maxConsecutiveLoss →
        (recordTrade cfg now st pnl).consecutiveLoss =
            st.consecutiveLoss + 1 ∧
          (recordTrade cfg now st pnl).cooldownUntil = st.cooldownUntil)) ∧
    (0 ≤ pnl →
      (recordTrade cfg now st pnl).consecutiveLoss = 0 ∧
        (recordTrade cfg now st pnl).cooldownUntil = st.cooldownUntil) ∧
    (recordTrade cfg now st pnl).halted = st.halted ∧
    (recordTrade cfg now st pnl).haltReason = st.haltReason := by
  simp only [recordTrade]
  by_cases hneg : pnl < 0
  · rw [if_pos hneg]
    by_cases htrig : cfg.maxConsecutiveLoss ≤ st.consecutiveLoss + 1
    · rw [if_pos htrig]
      exact ⟨rfl, fun _ => ⟨fun _ => ⟨rfl, rfl⟩,
        fun hlt => absurd htrig (not_le.mpr hlt)⟩,
        fun hge => absurd hneg (not_lt.mpr hge), rfl, rfl⟩
    · rw [if_neg htrig]
      exact ⟨rfl, fun _ => ⟨fun hle => absurd hle htrig,
        fun _ => ⟨rfl, rfl⟩⟩,
        fun hge => absurd hneg (not_lt.mpr hge), rfl, rfl⟩
  · rw [if_neg hneg]
    exact ⟨rfl, fun hlt => absurd hlt hneg, fun _ => ⟨rfl, rfl⟩, rfl, rfl⟩

/-- C5 witness: with the default configuration, a third consecutive loss
(counter at 2) recorded at time 0 enters cooldown until 300 s and resets
the counter, while the loss is added to the daily PnL. -/
theorem recordTrade_spec_witness :
    (recordTrade defaultRiskConfig 0 { consecutiveLoss := 2 }
        (-(1/100))).dailyPnL = 0 + -(1/100) ∧
    (recordTrade defaultRiskConfig 0 { consecutiveLoss := 2 }
        (-(1/100))).cooldownUntil = 0 + 300 ∧
    (recordTrade defaultRiskConfig 0 { consecutiveLoss := 2 }
        (-(1/100))).consecutiveLoss = 0 := by
  have h := recordTrade_spec defaultRiskConfig 0 { consecutiveLoss := 2 }
    (-(1/100))
  have htrig := (h.2.1 (by norm_num)).1 (by norm_num [defaultRiskConfig])
  exact ⟨h.1, htrig.1, htrig.2⟩

/-- Order type (`entity.OrderType`). -/
inductive OrderType where
  | limit
  | market
deriving Repr, DecidableEq

/-- Order status (`entity.OrderStatus`); `opened` renders Go's `open`,
which is a reserved word here. -/
inductive OrderStatus where
  | pending
  | opened
  | filled
  | canceled
  | rejected
deriving Repr, DecidableEq

/-- An order (`entity.Order`), restricted to the fields the dispatcher
reads and writes. -/
structure Order where
  id : String := ""
  symbol : String := ""
  side : Side := .buy
  orderType : OrderType := .limit
  price : ℚ := 0
  quantity : ℚ := 0
  filledQty : ℚ := 0
  status : OrderStatus := .pending
deriving Repr, DecidableEq

/-- The linear scan of `Bot.onOrderUpdate`: replace the first order with
a matching ID, reporting whether a match was found. -/
def replaceFirstById : List Order → Order → List Order × Bool
  | [], _ => ([], false)
  | x :: xs, o =>
    if x.id = o.id then (o :: xs, true)
    else
      let r := replaceFirstById xs o
      (x :: r.1, r.2)

/-- The PnL-tracking tail of `Bot.onOrderUpdate`: when the update is a
fill and a position with positive size is held, the realized PnL
`(fill_price − entry) × filled_qty` (negated for a sell-side position)
is passed to `risk.RecordTrade`; otherwise no call is made. -/
def pnlOnFill : Option Position → Order → Option ℚ
  | none, _ => none
  | some pos, order =>
    if order.status = .filled then
      if 0 < pos.size then
        some (if pos.side = .sell then
            -((order.price - pos.entryPrice) * order.filledQty)
          else (order.price - pos.entryPrice) * order.filledQty)
      else none
    else none

/-- `Bot.onOrderUpdate` from `cmd/bot/main.go`, as a function of the
dispatcher's position and orders snapshot.  Result: the updated orders
slice, whether `strategy.OnOrderUpdate` was invoked (always), and the
argument of the `risk.RecordTrade` call if one is made. -/
def onOrderUpdate (position : Option Position) (orders : List Order)
    (order : Order) : List Order × Bool × Option ℚ :=
  let rep := replaceFirstById orders order
  let newOrders :=
    if rep.2 then rep.1
    else if order.status = .opened then orders ++ [order]
    else orders
  (newOrders, true, pnlOnFill position order)

theorem replaceFirstById_not_found (orders : List Order) (o : Order)
    (h : ∀ x ∈ orders, x.id ≠ o.id) :
    replaceFirstById orders o = (orders, false) := by
  induction orders with
  | nil => rfl
  | cons x xs ih =>
    have hx : x.id ≠ o.id := h x (by simp)
    simp only [replaceFirstById, if_neg hx]
    rw [ih (fun y hy => h y (by simp [hy]))]

theorem replaceFirstById_found (pre : List Order) (x : Order)
    (suf : List Order) (o : Order) (hx : x.id = o.id)
    (hpre : ∀ y ∈ pre, y.id ≠ o.id) :
    replaceFirstById (pre ++ x :: suf) o = (pre ++ o :: suf, true) := by
  induction pre with
  | nil => simp [replaceFirstById, hx]
  | cons y ys ih =>
    have hy : y.id ≠ o.id := hpre y (by simp)
    simp only [List.cons_append, replaceFirstById, if_neg hy,
      List.append_eq]
    rw [ih (fun z hz => hpre z (by simp [hz]))]

/-- C6 counterexample: an order update with status filled while a short
position (size −1, side sell, signed-size convention of the strategy and
the spec's data model) is held makes no `risk.RecordTrade` call at all,
because the dispatcher's guard is `pos.Size > 0` — refuting the claim
that a realized PnL is recorded whenever a prior position existed. -/
theorem onOrderUpdate_short_no_record :
    (onOrderUpdate (some { side := Side.sell, size := -1, entryPrice := 100 })
        [] { id := "o1", price := 90, quantity := 1, filledQty := 1,
             status := .filled }).2.2 = none := by
  norm_num [onOrderUpdate, replaceFirstById, pnlOnFill]

/-- C6 (amended): the incoming order replaces the first entry with a
matching ID and is appended only when no entry matches and its status is
open; the strategy is always notified; and when the order's status is
filled and a prior position exists with strictly positive size, the
dispatcher calls `risk.RecordTrade` with
`(fill_price − entry_price) × filled_qty`, negated when the position's
side is sell; otherwise no `RecordTrade` call happens. -/
theorem onOrderUpdate_spec (position : Option Position)
    (orders : List Order) (order : Order) :
    ((∀ x ∈ orders, x.id ≠ order.id) →
      (onOrderUpdate position orders order).1 =
        (if order.status = .opened then orders ++ [order] else orders)) ∧
    (∀ pre x suf, orders = pre ++ x :: suf → x.id = order.id →
      (∀ y ∈ pre, y.id ≠ order.id) →
      (onOrderUpdate position orders order).1 = pre ++ order :: suf) ∧
    (onOrderUpdate position orders order).2.1 = true ∧
    (order.status = .filled →
      ∀ pos, position = some pos → 0 < pos.size →
        (onOrderUpdate position orders order).2.2 =
          some (if pos.side = .sell then
              -((order.price - pos.entryPrice) * order.filledQty)
            else (order.price - pos.entryPrice) * order.filledQty)) ∧
    ((order.status ≠ .filled ∨ position = none ∨
        ∃ pos, position = some pos ∧ pos.size ≤ 0) →
      (onOrderUpdate position orders order).2.2 = none) := by
  refine ⟨?_, ?_, rfl, ?_, ?_⟩
  · intro h
    simp only [onOrderUpdate, replaceFirstById_not_found orders order h]
    rfl
  · intro pre x suf horders hx hpre
    subst horders
    simp only [onOrderUpdate, replaceFirstById_found pre x suf order hx hpre]
    simp
  · intro hfilled pos hpos hsize
    subst hpos
    simp only [onOrderUpdate, pnlOnFill]
    rw [if_pos hfilled, if_pos hsize]
  · intro hcase
    simp only [onOrderUpdate]
    rcases hcase with hnf | hnone | ⟨pos, hpos, hle⟩
    · rcases position with _ | pos
      · rfl
      · simp only [pnlOnFill]
        rw [if_neg hnf]
    · subst hnone
      rfl
    · subst hpos
      simp only [pnlOnFill]
      rw [if_neg (not_lt.mpr hle)]
      split_ifs <;> rfl

/-- C6 witness for the amended claim: a filled sell order at 110 closing
a long of size 1 entered at 100 records a PnL of 10, and a filled order
is not appended to an empty orders slice. -/
theorem onOrderUpdate_spec_witness :
    (onOrderUpdate (some { side := Side.buy, size := 1, entryPrice := 100 })
        [] { id := "o1", side := Side.sell, price := 110, quantity := 1,
             filledQty := 1, status := .filled }).2.2 =
      some (if Side.buy = Side.sell then -(((110 : ℚ) - 100) * 1)
        else ((110 : ℚ) - 100) * 1) ∧
    (onOrderUpdate (some { side := Side.buy, size := 1, entryPrice := 100 })
        [] { id := "o1", side := Side.sell, price := 110, quantity := 1,
             filledQty := 1, status := .filled }).1 = [] := by
  have h := onOrderUpdate_spec
    (some { side := Side.buy, size := 1, entryPrice := 100 }) []
    { id := "o1", side := Side.sell, price := 110, quantity := 1,
      filledQty := 1, status := .filled }
  refine ⟨h.2.2.2.1 rfl _ rfl (by norm_num), ?_⟩
  have h1 := h.1 (by simp)
  simpa using h1

/-- An observable effect of `Bot.executeOrder`. -/
inductive ExecEffect where
  | strategyUpdate (o : Order)
  | exchangePlace (o : Order)
  | riskRecord (pnl : ℚ)
deriving Repr, DecidableEq

/-- `Bot.executeOrder` from `cmd/bot/main.go`, with the live-mode
exchange response (`PlaceOrder` result) passed explicitly.  Returns the
sequence of effects: in dry-run a filled order is synthesized and only
the strategy is notified; in live mode the order is placed and a failure
records a −0.001 sentinel loss. -/
def executeOrder (dryRun : Bool) (sig : TradeSignal)
    (placeResult : Except String Order) : List ExecEffect :=
  let order : Order :=
    { symbol := sig.symbol, side := sig.side, orderType := .limit,
      price := sig.price, quantity := sig.quantity }
  if dryRun then
    let filled := { order with status := OrderStatus.filled,
                               filledQty := order.quantity }
    [.strategyUpdate filled]
  else
    match placeResult with
    | .error _ => [.exchangePlace order, .riskRecord (-(1/1000))]
    | .ok _ => [.exchangePlace order]

/-- C7: in dry-run mode the dispatcher's only effect is a strategy
notification with a synthesized order of status filled and filled
quantity equal to the signal quantity — in particular it never places an
exchange order and never calls `risk.RecordTrade`; in live mode a failed
placement is followed by `risk.RecordTrade(−0.001)`. -/
theorem executeOrder_effects (sig : TradeSignal)
    (placeResult : Except String Order) :
    executeOrder true sig placeResult =
      [.strategyUpdate
        { symbol := sig.symbol, side := sig.side, orderType := .limit,
          price := sig.price, quantity := sig.quantity,
          filledQty := sig.quantity, status := .filled }] ∧
    (∀ e ∈ executeOrder true sig placeResult,
      (∀ o, e ≠ .exchangePlace o) ∧ (∀ p, e ≠ .riskRecord p)) ∧
    (∀ msg, executeOrder false sig (.error msg) =
      [.exchangePlace
        { symbol := sig.symbol, side := sig.side, orderType := .limit,
          price := sig.price, quantity := sig.quantity },
       .riskRecord (-(1/1000))]) := by
  refine ⟨rfl, ?_, fun msg => rfl⟩
  intro e he
  simp only [executeOrder, if_true, List.mem_singleton] at he
  subst he
  exact ⟨fun o => by simp, fun p => by simp⟩

/-- `mapBlockchainToSymbol` from `signal/provider.go`; unmapped chains
yield the empty string and the alert is dropped. -/
def mapBlockchainToSymbol (blockchain : String) : String :=
  if blockchain = "bitcoin" then "BTC"
  else if blockchain = "ethereum" then "ETH"
  else if blockchain = "tron" then "TRX"
  else if blockchain = "solana" then "SOL"
  else ""

/-- `Provider.onWhaleAlert` from `signal/provider.go`: map the
blockchain to a symbol (dropping unmapped alerts), evict cached entries
at least 30 minutes old (`Timestamp.After(cutoff)` keeps strictly newer
ones), append the new alert.  The per-symbol cache map is modelled as a
function, `time.Now()` as the explicit `now` (seconds). -/
def onWhaleAlert (now : ℤ) (cache : String → List WhaleAlert)
    (alert : WhaleAlert) : String → List WhaleAlert :=
  let symbol := mapBlockchainToSymbol alert.blockchain
  if symbol = "" then cache
  else fun s =>
    if s = symbol then
      (cache symbol).filter (fun a => now - 30 * 60 < a.timestamp) ++
        [alert]
    else cache s

/-- `Provider.onLiquidation` from `signal/provider.go`: same retention
scheme with a 10-minute window, keyed by the subscription's symbol. -/
def onLiquidation (now : ℤ) (cache : String → List Liquidation)
    (symbol : String) (liq : Liquidation) : String → List Liquidation :=
  fun s =>
    if s = symbol then
      (cache symbol).filter (fun l => now - 10 * 60 < l.timestamp) ++ [liq]
    else cache s

/-- C9: on every whale insert, the surviving old entries of the
mapped symbol are exactly recent ones (strictly newer than 30 minutes
before the insert) drawn from the prior cache, with the new alert
appended; liquidation inserts behave the same with a 10-minute window;
and an alert inserted at `t0` is gone from every symbol of a snapshot
taken after the next write at `t0 + 31` minutes, the retention window
being applied on that write. -/
theorem cacheRetention_spec :
    (∀ (now : ℤ) (cache : String → List WhaleAlert) (alert : WhaleAlert),
      mapBlockchainToSymbol alert.blockchain ≠ "" →
      ∃ kept,
        onWhaleAlert now cache alert
            (mapBlockchainToSymbol alert.blockchain) = kept ++ [alert] ∧
          ∀ a ∈ kept, now - 30 * 60 < a.timestamp ∧
            a ∈ cache (mapBlockchainToSymbol alert.blockchain)) ∧
    (∀ (now : ℤ) (cache : String → List Liquidation) (symbol : String)
        (liq : Liquidation),
      ∃ kept,
        onLiquidation now cache symbol liq symbol = kept ++ [liq] ∧
          ∀ l ∈ kept, now - 10 * 60 < l.timestamp ∧ l ∈ cache symbol) ∧
    (∀ (cache : String → List WhaleAlert) (a b : WhaleAlert) (t0 : ℤ),
      a.timestamp = t0 →
      mapBlockchainToSymbol a.blockchain ≠ "" →
      mapBlockchainToSymbol b.blockchain =
        mapBlockchainToSymbol a.blockchain →
      b ≠ a →
      (∀ s, a ∉ cache s) →
      ∀ s, a ∉ onWhaleAlert (t0 + 31 * 60)
        (onWhaleAlert t0 cache a) b s) := by
  refine ⟨?_, ?_, ?_⟩
  · intro now cache alert hsym
    refine ⟨(cache (mapBlockchainToSymbol alert.blockchain)).filter
      (fun a => now - 30 * 60 < a.timestamp), ?_, ?_⟩
    · simp only [onWhaleAlert, if_neg hsym, if_pos rfl]
    · intro a ha
      rw [List.mem_filter] at ha
      exact ⟨by simpa using ha.2, ha.1⟩
  · intro now cache symbol liq
    refine ⟨(cache symbol).filter
      (fun l => now - 10 * 60 < l.timestamp), ?_, ?_⟩
    · simp [onLiquidation]
    · intro l hl
      rw [List.mem_filter] at hl
      exact ⟨by simpa using hl.2, hl.1⟩
  · intro cache a b t0 hts hsa hsb hne hfresh s
    have hsb' : mapBlockchainToSymbol b.blockchain ≠ "" := by
      rw [hsb]; exact hsa
    intro hmem
    by_cases hs : s = mapBlockchainToSymbol a.blockchain
    · simp only [onWhaleAlert, if_neg hsa, if_neg hsb', hsb, hs,
        eq_self_iff_true, if_true] at hmem
      rcases List.mem_append.mp hmem with hin | hb
      · rw [List.mem_filter] at hin
        rcases List.mem_append.mp hin.1 with hold | ha
        · exact hfresh _ (List.mem_filter.mp hold).1
        · have hlt : t0 + 31 * 60 - 30 * 60 < a.timestamp := by
            simpa using hin.2
          rw [hts] at hlt
          omega
      · exact hne (List.mem_singleton.mp hb).symm
    · simp only [onWhaleAlert, if_neg hsa, if_neg hsb', hsb, if_neg hs]
        at hmem
      exact hfresh s hmem

/-- C9 witness: a bitcoin whale alert inserted at time 0 into an empty
cache is present only as the appended entry, and a second bitcoin alert
inserted 31 minutes later evicts it from every symbol. -/
theorem cacheRetention_spec_witness :
    (∃ kept,
      onWhaleAlert 0 (fun _ => [])
          { id := "w1", blockchain := "bitcoin", timestamp := 0 }
          (mapBlockchainToSymbol "bitcoin") = kept ++
            [{ id := "w1", blockchain := "bitcoin", timestamp := 0 }] ∧
        ∀ a ∈ kept, (0 : ℤ) - 30 * 60 < a.timestamp ∧
          a ∈ (fun _ => ([] : List WhaleAlert))
            (mapBlockchainToSymbol "bitcoin")) ∧
    ∀ s, ({ id := "w1", blockchain := "bitcoin",
              timestamp := 0 } : WhaleAlert) ∉
      onWhaleAlert ((0 : ℤ) + 31 * 60)
        (onWhaleAlert 0 (fun _ => [])
          { id := "w1", blockchain := "bitcoin", timestamp := 0 })
        { id := "w2", blockchain := "bitcoin", timestamp := 31 * 60 } s := by
  constructor
  · exact cacheRetention_spec.1 0 (fun _ => [])
      { id := "w1", blockchain := "bitcoin", timestamp := 0 }
      (by decide)
  · exact cacheRetention_spec.2.2 (fun _ => [])
      { id := "w1", blockchain := "bitcoin", timestamp := 0 }
      { id := "w2", blockchain := "bitcoin", timestamp := 31 * 60 } 0
      rfl (by decide) (by decide) (by decide) (fun s => by simp)

/-- Bollinger bands (`strategy.BollingerBands`).  The standard deviation
passes through `math.Sqrt`, so the band values live in `ℝ`. -/
structure BollingerBands where
  upper : ℝ
  middle : ℝ
  lower : ℝ

/-- `CalculateBollingerBands` from `strategy/indicators.go`.  The Go
function indexes `prices[len(prices)-1]` in its insufficient-data
branch, which panics on an empty slice; the panic is modelled by
`none` (via `getLast?`).  All arithmetic before the final `math.Sqrt`
is exact, so it is carried out in `ℚ` and cast; `Real.sqrt` is the one
non-executable step, faithful to `math.Sqrt`. -/
noncomputable def calculateBollingerBands (prices : List ℚ) (period : ℕ)
    (stdDevMultiplier : ℚ) : Option BollingerBands :=
  if prices.length < period then
    match prices.getLast? with
    | none => none
    | some lastPrice => some ⟨lastPrice, lastPrice, lastPrice⟩
  else
    let recent := prices.drop (prices.length - period)
    let sma : ℚ := recent.sum / period
    let variance : ℚ := (recent.map (fun p => (p - sma)^2)).sum
    let stdDev : ℝ := Real.sqrt ((variance : ℝ) / (period : ℝ))
    some ⟨(sma : ℝ) + (stdDevMultiplier : ℝ) * stdDev, (sma : ℝ),
      (sma : ℝ) - (stdDevMultiplier : ℝ) * stdDev⟩

/-- C10: with a positive period and a non-negative multiplier, the
bands are defined and ordered (lower ≤ middle ≤ upper) for every
non-empty price list, and all three equal the last price when fewer
than `period` samples are available; on the empty list the
insufficient-data branch's index is out of range (`none`), so
non-emptiness is a necessary precondition for totality. -/
theorem calculateBollingerBands_spec (prices : List ℚ) (period : ℕ)
    (m : ℚ) (hper : 0 < period) (hm : 0 ≤ m) :
    (prices ≠ [] →
      ∃ b, calculateBollingerBands prices period m = some b ∧
        b.lower ≤ b.middle ∧ b.middle ≤ b.upper ∧
        (prices.length < period →
          ∃ lastPrice, prices.getLast? = some lastPrice ∧
            b.lower = (lastPrice : ℝ) ∧ b.middle = (lastPrice : ℝ) ∧
            b.upper = (lastPrice : ℝ))) ∧
    (prices = [] → calculateBollingerBands prices period m = none) := by
  constructor
  · intro hne
    simp only [calculateBollingerBands]
    by_cases hlen : prices.length < period
    · rw [if_pos hlen]
      obtain ⟨lastPrice, hlast⟩ :=
        Option.isSome_iff_exists.mp (List.getLast?_isSome.mpr hne)
      rw [hlast]
      exact ⟨⟨lastPrice, lastPrice, lastPrice⟩, rfl, le_refl _, le_refl _,
        fun _ => ⟨lastPrice, rfl, rfl, rfl, rfl⟩⟩
    · rw [if_neg hlen]
      refine ⟨_, rfl, ?_, ?_, fun hc => absurd hc hlen⟩
      · exact sub_le_self _
          (mul_nonneg (by exact_mod_cast hm) (Real.sqrt_nonneg _))
      · exact le_add_of_nonneg_right
          (mul_nonneg (by exact_mod_cast hm) (Real.sqrt_nonneg _))
  · intro hempty
    subst hempty
    simp only [calculateBollingerBands]
    rw [if_pos (by simpa using hper)]
    rfl

/-- C10 witness: a one-sample list with period 2 lands in the
insufficient-data branch, all bands equal the sample, and the ordering
holds; the empty list with period 1 is undefined. -/
theorem calculateBollingerBands_spec_witness :
    (∃ b, calculateBollingerBands [5] 2 1 = some b ∧
      b.lower ≤ b.middle ∧ b.middle ≤ b.upper ∧
      (([5] : List ℚ).length < 2 →
        ∃ lastPrice, ([5] : List ℚ).getLast? = some lastPrice ∧
          b.lower = (lastPrice : ℝ) ∧ b.middle = (lastPrice : ℝ) ∧
          b.upper = (lastPrice : ℝ))) ∧
    calculateBollingerBands [] 1 1 = none := by
  constructor
  · exact (calculateBollingerBands_spec [5] 2 1 (by norm_num)
      (by norm_num)).1 (by simp)
  · exact (calculateBollingerBands_spec [] 1 1 (by norm_num)
      (by norm_num)).2 rfl

end HyperliquidBot
